import Mathlib

/-!
Verification of wave-simple-80211p: payload buffer, XOR utility, traffic generator,
tracers.

A shallow embedding of `src/scratch/wave-simple-80211p.cc`.

Conventions of the embedding.

* A byte is a natural number (a `uint8_t` holds one below 256); a byte array and the
  bytes of a `std::string` are a `List Nat`.  The xor of two bytes is again a byte
  (`xor_byte_lt`), so the store `c[i] = a[i] ^ b[i]` never truncates.
* A `uint32_t` is a natural number reduced modulo `UINT32 = 2^32` wherever the source
  computes one.  A `size_t` (the length of a live object) is an unbounded natural
  number.
* A function that may touch memory outside an object, or loop, returns a `Res`:
  `ok v`, `fault` (an access outside the object: undefined behaviour in C++), or
  `timeout` (the fuel given to a loop ran out).
-/

namespace WaveSimple

/-- The number of values of a `uint32_t`. -/
def UINT32 : Nat := 4294967296

/-- Outcome of running a piece of the program. -/
inductive Res (α : Type) where
  | ok (v : α)
  | fault
  | timeout
  deriving DecidableEq, Repr

/-- The `b.c_str ()` of a `std::string`: its bytes and one terminating zero byte. -/
def c_str (s : List Nat) : List Nat := s ++ [0]

/-- An array declared `uint8_t x[size] = {0}`: `size` zero bytes. -/
def zeroArray (size : Nat) : List Nat := List.replicate size 0

/-- The call `memcpy (dst, src, n)` on two array objects: the first `n` bytes of `dst`
are replaced by the first `n` bytes of `src`.  Reading past the end of `src` or writing
past the end of `dst` is a fault. -/
def memcpy (dst src : List Nat) (n : Nat) : Res (List Nat) :=
  if n ≤ src.length ∧ n ≤ dst.length then .ok (src.take n ++ dst.drop n) else .fault

/-- The loop shared by the three `XOR` overloads,
`for (uint32_t i = 0; i < size; i++) c[i] = a[i] ^ b[i];`, started at index `i`.
The counter is a `uint32_t`, so `i++` wraps at `2^32`; `size` is the loop bound as the
comparison sees it.  Each element access is checked against the array it touches. -/
def xorLoop (a b : List Nat) (size : Nat) : Nat → Nat → List Nat → Res (List Nat)
  | 0, _, _ => .timeout
  | fuel + 1, i, c =>
    if i < size then
      match a[i]?, b[i]? with
      | some x, some y =>
        if i < c.length then
          xorLoop a b size fuel ((i + 1) % UINT32) (c.set i (x ^^^ y))
        else .fault
      | _, _ => .fault
    else .ok c

/-- `XOR (const uint8_t * a, const uint8_t * b, size_t size, uint8_t * c)`:
`a`, `b` and `c` are the arrays the three pointers point to; the result is the
array `c` after the call (the function returns the pointer `c`). -/
def XOR_buf (a b : List Nat) (size : Nat) (c : List Nat) (fuel : Nat) : Res (List Nat) :=
  xorLoop a b size fuel 0 c

/-- `XOR (const uint8_t * a, const std::string b, size_t size, uint8_t * c)`:
the scratch array `b1[size]` is zero-filled, then receives `b.length () + 1` bytes of
`b.c_str ()`, then the loop runs over `a` and `b1`. -/
def XOR_str (a b : List Nat) (size : Nat) (c : List Nat) (fuel : Nat) : Res (List Nat) :=
  match memcpy (zeroArray size) (c_str b) (b.length + 1) with
  | .ok b1 => xorLoop a b1 size fuel 0 c
  | .fault => .fault
  | .timeout => .timeout

/-- `XOR (const std::string a, const std::string b, uint8_t * c)`:
`uint32_t size = std::max (a.length (), b.length ()) + 1`, two zero-filled scratch
arrays of `size` bytes that receive the two C strings, then the loop. -/
def XOR_text (a b : List Nat) (c : List Nat) (fuel : Nat) : Res (List Nat) :=
  let size := (max a.length b.length + 1) % UINT32
  match memcpy (zeroArray size) (c_str a) (a.length + 1) with
  | .ok a1 =>
    match memcpy (zeroArray size) (c_str b) (b.length + 1) with
    | .ok b1 => xorLoop a1 b1 size fuel 0 c
    | .fault => .fault
    | .timeout => .timeout
  | .fault => .fault
  | .timeout => .timeout

/-! ## Payload buffer -/

/-- The two globals `m_dataSize` and `m_data`.  `m_data` is `none` for the null pointer
and `some bytes` for a pointer to a live array holding `bytes`.  `allocs` counts the
`new []` expressions evaluated so far: it names the allocation `m_data` points to. -/
structure Globals where
  m_dataSize : Nat
  m_data : Option (List Nat)
  allocs : Nat
  deriving DecidableEq, Repr

/-- The globals as initialised: `m_dataSize = 0`, `m_data = 0`. -/
def Globals.init : Globals := { m_dataSize := 0, m_data := none, allocs := 0 }

/-- The storage `m_data` points to has exactly `m_dataSize` bytes (none for the null
pointer). -/
def Globals.WF (g : Globals) : Prop :=
  match g.m_data with
  | none => g.m_dataSize = 0
  | some d => d.length = g.m_dataSize

instance (g : Globals) : Decidable g.WF := by
  unfold Globals.WF; cases g.m_data <;> exact inferInstance

/-- The array `new uint8_t [n]` returns: `n` bytes of indeterminate value, byte `k`
being `junk k`. -/
def newArray (junk : Nat → Nat) (n : Nat) : List Nat := (List.range n).map junk

/-- The call `memcpy (p, src, n)` through a pointer `p`.  A copy of zero bytes touches
no memory; a copy of at least one byte through the null pointer is a fault. -/
def memcpyPtr (p : Option (List Nat)) (src : List Nat) (n : Nat) : Res (Option (List Nat)) :=
  match p with
  | none => if n = 0 then .ok none else .fault
  | some d =>
    match memcpy d src n with
    | .ok d1 => .ok (some d1)
    | .fault => .fault
    | .timeout => .timeout

/-- `SetFill (std::string fill)`. -/
def SetFill (junk : Nat → Nat) (fill : List Nat) (g : Globals) : Res Globals :=
  let dataSize := (fill.length + 1) % UINT32
  let g1 : Globals :=
    if dataSize ≠ g.m_dataSize then
      { m_dataSize := dataSize, m_data := some (newArray junk dataSize), allocs := g.allocs + 1 }
    else g
  match memcpyPtr g1.m_data (c_str fill) dataSize with
  | .ok p => .ok { g1 with m_data := p }
  | .fault => .fault
  | .timeout => .timeout

/-! ## Packets, sockets, addresses -/

/-- Modelled from the spec: the `Packet` of the simulation library, "an immutable,
fixed-length byte sequence constructed at send time from either a fixed filler byte or
explicit payload bytes". -/
structure Packet where
  data : List Nat
  deriving DecidableEq, Repr

/-- `packet->GetSize ()`. -/
def Packet.GetSize (p : Packet) : Nat := p.data.length

/-- Modelled from the spec: `Create<Packet> (size)`, a packet of `size` filler bytes
(zero bytes). -/
def Packet.ofSize (size : Nat) : Packet := ⟨List.replicate size 0⟩

/-- Modelled from the spec: `Create<Packet> (buffer, size)`, a packet holding a copy of
the `size` bytes `buffer` points to. -/
def Packet.ofBuffer (buffer : Option (List Nat)) (size : Nat) : Res Packet :=
  match buffer with
  | none => if size = 0 then .ok ⟨[]⟩ else .fault
  | some d => if size ≤ d.length then .ok ⟨d.take size⟩ else .fault

/-- Modelled from the spec: `packet->CopyData (buffer, size)`, which copies the first
`min (size, GetSize ())` payload bytes into the array `buffer`. -/
def Packet.CopyData (p : Packet) (buffer : List Nat) (size : Nat) : Res (List Nat) :=
  memcpy buffer p.data (min size p.GetSize)

/-- An operation performed on a socket; a socket is named by a number. -/
inductive SockOp where
  | send (socket : Nat) (p : Packet)
  | close (socket : Nat)
  deriving DecidableEq, Repr

/-- Modelled from the spec: an `Address`, "an opaque network address; may or may not be
of a recognized family". -/
inductive Address where
  | inet (ipv4 : Nat) (port : Nat)
  | other (type : Nat)
  deriving DecidableEq, Repr

/-! ## One-shot sender -/

/-- `SendData (Ptr<Socket> socket, std::string data)`: the globals after the call and
the operations performed on sockets. -/
def SendData (junk : Nat → Nat) (socket : Nat) (data : List Nat) (g : Globals) :
    Res (Globals × List SockOp) :=
  match SetFill junk data g with
  | .ok g1 =>
    match Packet.ofBuffer g1.m_data g1.m_dataSize with
    | .ok packet => .ok (g1, [SockOp.send socket packet])
    | .fault => .fault
    | .timeout => .timeout
  | .fault => .fault
  | .timeout => .timeout

/-! ## Traffic generator and scheduler -/

/-- A function call the scheduler can hold: the two functions `main` schedules. -/
inductive Action where
  | generateTraffic (socket pktSize pktCount pktInterval : Nat)
  | sendData (socket : Nat) (data : List Nat)
  deriving DecidableEq, Repr

/-- What one invocation does to the outside: socket operations, in order, and calls
handed to `Simulator::Schedule`, each with its delay. -/
structure Effects where
  ops : List SockOp
  scheduled : List (Nat × Action)
  deriving DecidableEq, Repr

/-- `GenerateTraffic (socket, pktSize, pktCount, pktInterval)`.  `pktCount - 1` is a
`uint32_t` subtraction. -/
def GenerateTraffic (socket pktSize pktCount pktInterval : Nat) : Effects :=
  if pktCount > 0 then
    { ops := [SockOp.send socket (Packet.ofSize pktSize)],
      scheduled := [(pktInterval,
        Action.generateTraffic socket pktSize ((pktCount + UINT32 - 1) % UINT32) pktInterval)] }
  else
    { ops := [SockOp.close socket], scheduled := [] }

/-- Runs one scheduled call on the globals. -/
def Action.run (junk : Nat → Nat) (a : Action) (g : Globals) : Res (Globals × Effects) :=
  match a with
  | .generateTraffic socket pktSize pktCount pktInterval =>
    .ok (g, GenerateTraffic socket pktSize pktCount pktInterval)
  | .sendData socket data =>
    match SendData junk socket data g with
    | .ok (g1, ops) => .ok (g1, { ops := ops, scheduled := [] })
    | .fault => .fault
    | .timeout => .timeout

/-- Modelled from the spec: the event queue of the simulator, "ordered by virtual
time", "events at equal time execute in scheduling order".  Inserts a call to run at
time `t` behind every queued call of time at most `t`. -/
def insertEvent (t : Nat) (a : Action) : List (Nat × Action) → List (Nat × Action)
  | [] => [(t, a)]
  | e :: q => if t < e.1 then (t, a) :: e :: q else e :: insertEvent t a q

/-- Modelled from the spec: the state of the simulation: the virtual time, the pending
calls in dispatch order, the globals, the socket operations performed so far with the
virtual time of each, and the calls dispatched so far with the virtual time of each. -/
structure Sim where
  now : Nat
  queue : List (Nat × Action)
  globals : Globals
  trace : List (Nat × SockOp)
  calls : List (Nat × Action)
  deriving DecidableEq, Repr

/-- Modelled from the spec: `Simulator::Run`.  Each round takes the first pending call,
advances the virtual time to its time, runs it to completion, records it, appends its
socket operations to the trace and queues the calls it scheduled at `now + delay`.  The run ends
when no call is pending; `fuel` bounds the number of rounds. -/
def Sim.run (junk : Nat → Nat) : Nat → Sim → Res Sim
  | 0, s => if s.queue = [] then .ok s else .timeout
  | fuel + 1, s =>
    match s.queue with
    | [] => .ok s
    | (t, a) :: q =>
      match a.run junk s.globals with
      | .ok (g, eff) =>
        Sim.run junk fuel
          { now := t,
            queue := eff.scheduled.foldl (fun q1 d => insertEvent (t + d.1) d.2 q1) q,
            globals := g,
            trace := s.trace ++ eff.ops.map (fun op => (t, op)),
            calls := s.calls ++ [(t, a)] }
      | .fault => .fault
      | .timeout => .timeout

/-- The simulation in which the only pending call is `a`, at virtual time `t0`. -/
def Sim.start (t0 : Nat) (a : Action) (g : Globals) : Sim :=
  { now := 0, queue := [(t0, a)], globals := g, trace := [], calls := [] }

/-! ## Receive tracers -/

/-- The bytes of a string literal of the source (all of them ASCII). -/
def lit (s : String) : List Nat := s.toList.map Char.toNat

/-- The text the stream insertions of library values write: the seconds of a virtual
time, an IPv4 address, a node id.  They belong to the simulation library and are taken
as given. -/
structure Fmt where
  seconds : Nat → List Nat
  ipv4 : Nat → List Nat
  nodeId : Nat → List Nat

/-- `oss << buffer` for a `uint8_t *`: the bytes before the first zero byte of the
array.  An array without a zero byte is read past its end: a fault. -/
def readText : List Nat → Res (List Nat)
  | [] => .fault
  | x :: rest =>
    if x = 0 then .ok []
    else
      match readText rest with
      | .ok text => .ok (x :: text)
      | .fault => .fault
      | .timeout => .timeout

/-- The store `buffer[i] = v` into an array. -/
def store (buffer : List Nat) (i v : Nat) : Res (List Nat) :=
  if i < buffer.length then .ok (buffer.set i v) else .fault

/-- `PrintReceivedPacket (socket, packet, srcAddress)` at virtual time `now`, for a
socket of node `nodeId`: the string it returns.  The local `buffer` has
`packet->GetSize ()` bytes of indeterminate value before `CopyData`. -/
def PrintReceivedPacket (F : Fmt) (junk : Nat → Nat) (now nodeId : Nat) (packet : Packet)
    (srcAddress : Address) : Res (List Nat) :=
  let oss := F.seconds now ++ lit " node " ++ F.nodeId nodeId
  match srcAddress with
  | .inet ipv4 _ =>
    let oss := oss ++ lit " received one packet from " ++ F.ipv4 ipv4
    match packet.CopyData (newArray junk packet.GetSize) packet.GetSize with
    | .ok buffer =>
      match readText buffer with
      | .ok text => .ok (oss ++ lit ". data: " ++ text)
      | .fault => .fault
      | .timeout => .timeout
    | .fault => .fault
    | .timeout => .timeout
  | .other _ => .ok (oss ++ lit " received one packet!")

/-- `TwoAddressTrace (context, packet, srcAddr, destAddr)` at virtual time `now`: the
line it logs.  The local `buffer` has `packet->GetSize () + 1` bytes, a `uint32_t`
sum. -/
def TwoAddressTrace (F : Fmt) (junk : Nat → Nat) (now : Nat) (context : List Nat)
    (packet : Packet) (srcAddr destAddr : Address) : Res (List Nat) :=
  let oss := F.seconds now
  let oss :=
    match destAddr with
    | .inet ipv4 _ => oss ++ lit " " ++ F.ipv4 ipv4
    | .other _ => oss
  match srcAddr with
  | .inet ipv4 _ =>
    let oss := oss ++ lit " received one packet from " ++ F.ipv4 ipv4
    match packet.CopyData (newArray junk ((packet.GetSize + 1) % UINT32)) packet.GetSize with
    | .ok buffer =>
      match store buffer packet.GetSize 0 with
      | .ok buffer =>
        match readText buffer with
        | .ok text => .ok (oss ++ lit ". data: " ++ text)
        | .fault => .fault
        | .timeout => .timeout
      | .fault => .fault
      | .timeout => .timeout
    | .fault => .fault
    | .timeout => .timeout
  | .other _ => .ok (oss ++ lit " received one packet!")

/-! ## Definitions used in the statements -/

/-- The bytes the loop computes: the xor of the first `size` bytes of the operands. -/
def xorBytes (a b : List Nat) (size : Nat) : List Nat :=
  List.zipWith (fun x y => x ^^^ y) (a.take size) (b.take size)

/-- A buffer of `2^32` zero bytes. -/
def bigBuffer : List Nat := List.replicate UINT32 0

/-- The trace of a generator chain started at `t` with count `n`. -/
def chainTrace (socket pktSize pktInterval t n : Nat) : List (Nat × SockOp) :=
  (List.range n).map (fun k => (t + k * pktInterval, SockOp.send socket (Packet.ofSize pktSize)))
    ++ [(t + n * pktInterval, SockOp.close socket)]

/-- A text of `2^32` bytes, none of them zero. -/
def bigText : List Nat := List.replicate UINT32 97

/-- The calls of a generator chain started at `t` with count `n`: call `k` at
`t + k * pktInterval` with remaining count `n - k`, for `k = 0 .. n`. -/
def chainCalls (socket pktSize pktInterval t n : Nat) : List (Nat × Action) :=
  (List.range (n + 1)).map
    (fun k => (t + k * pktInterval, Action.generateTraffic socket pktSize (n - k) pktInterval))

/-- A text extended with zero bytes to `n` bytes. -/
def zeroExtend (s : List Nat) (n : Nat) : List Nat := s ++ List.replicate (n - s.length) 0

/-- A call that fills the payload buffer: `SetFill (fill)` or `SendData (socket, data)`,
which fills it with `data`. -/
inductive BufCall where
  | setFill (fill : List Nat)
  | sendData (socket : Nat) (data : List Nat)
  deriving DecidableEq, Repr

/-- The content a call fills the buffer with. -/
def BufCall.content : BufCall → List Nat
  | .setFill fill => fill
  | .sendData _ data => data

/-- The globals after one call. -/
def BufCall.run (junk : Nat → Nat) (c : BufCall) (g : Globals) : Res Globals :=
  match c with
  | .setFill fill => SetFill junk fill g
  | .sendData socket data =>
    match SendData junk socket data g with
    | .ok (g1, _) => .ok g1
    | .fault => .fault
    | .timeout => .timeout

/-- The globals after a sequence of calls, first call first. -/
def runCalls (junk : Nat → Nat) : List BufCall → Globals → Res Globals
  | [], g => .ok g
  | c :: cs, g =>
    match c.run junk g with
    | .ok g1 => runCalls junk cs g1
    | .fault => .fault
    | .timeout => .timeout

/-- The bytes of an array before its first zero byte. -/
def upToZero (d : List Nat) : List Nat := d.takeWhile (fun x => decide (x ≠ 0))

/-- The formatting used in the concrete instances: the time and the addresses in
decimal digits of one character. -/
def digitFmt : Fmt :=
  { seconds := fun n => [48 + n], ipv4 := fun n => [48 + n], nodeId := fun n => [48 + n] }

/-- A text of `2^32 - 2` bytes, none of them zero. -/
def longText : List Nat := List.replicate (UINT32 - 2) 97

/-! ## Lemmas on the XOR loop -/

/-- The xor of two bytes is a byte. -/
theorem xor_byte_lt (x y : Nat) (hx : x < 256) (hy : y < 256) : x ^^^ y < 256 := by
  have hx8 : x < 2 ^ 8 := hx
  have hy8 : y < 2 ^ 8 := hy
  exact Nat.xor_lt_two_pow hx8 hy8

theorem xorBytes_length (a b : List Nat) (size : Nat) (ha : size ≤ a.length)
    (hb : size ≤ b.length) : (xorBytes a b size).length = size := by
  simp [xorBytes, List.length_zipWith, List.length_take, ha, hb]

theorem xorBytes_getElem? (a b : List Nat) (size i : Nat) (hi : i < size)
    (ha : size ≤ a.length) (hb : size ≤ b.length) :
    (xorBytes a b size)[i]? = some (a[i] ^^^ b[i]) := by
  have h1 : i < a.length := by omega
  have h2 : i < b.length := by omega
  simp [xorBytes, List.getElem?_zipWith, List.getElem?_take, hi,
    List.getElem?_eq_getElem h1, List.getElem?_eq_getElem h2]

/-- With a bound below `2^32` and arrays of at least `size` bytes, the loop started at
`i` with enough fuel overwrites `c[i .. size)` with the xor bytes and nothing else. -/
theorem xorLoop_eq (a b : List Nat) (size : Nat) (hsz : size < UINT32)
    (ha : size ≤ a.length) (hb : size ≤ b.length) :
    ∀ (fuel i : Nat) (c : List Nat), i ≤ size → size ≤ c.length → size - i < fuel →
      xorLoop a b size fuel i c
        = .ok (c.take i ++ (xorBytes a b size).drop i ++ c.drop size) := by
  intro fuel
  induction fuel with
  | zero => intro i c _ _ h; omega
  | succ fuel ih =>
    intro i c hi hc hf
    unfold xorLoop
    by_cases hlt : i < size
    · have h1 : i < a.length := by omega
      have h2 : i < b.length := by omega
      have h3 : i < c.length := by omega
      have hmod : (i + 1) % UINT32 = i + 1 := Nat.mod_eq_of_lt (by omega)
      simp only [hlt, if_true, List.getElem?_eq_getElem h1, List.getElem?_eq_getElem h2, h3,
        hmod]
      rw [ih (i + 1) _ (by omega) (by simpa using hc) (by omega)]
      congr 1
      have hz : i < (xorBytes a b size).length := by
        rw [xorBytes_length a b size ha hb]; exact hlt
      have hd : (xorBytes a b size).drop i
          = (a[i] ^^^ b[i]) :: (xorBytes a b size).drop (i + 1) := by
        rw [List.drop_eq_getElem_cons hz]
        congr 1
        have := xorBytes_getElem? a b size i hlt ha hb
        rw [List.getElem?_eq_getElem hz] at this
        exact Option.some.inj this
      rw [hd, List.set_eq_take_append_cons_drop]
      simp only [h3, if_true]
      have hl : (List.take i c).length = i := by simp; omega
      have e1 : List.take (i + 1) (List.take i c ++ (a[i] ^^^ b[i]) :: List.drop (i + 1) c)
          = List.take i c ++ [a[i] ^^^ b[i]] := by
        rw [List.take_append_eq_append_take, hl]
        simp
      have e2 : List.drop size (List.take i c ++ (a[i] ^^^ b[i]) :: List.drop (i + 1) c)
          = List.drop size c := by
        rw [List.drop_append_eq_append_drop, hl]
        have : size - i = (size - i - 1) + 1 := by omega
        rw [List.drop_of_length_le (by simp; omega), this, List.drop_succ_cons, List.drop_drop]
        simp
        congr 1; omega
      rw [e1, e2]
      simp
    · have : i = size := by omega
      subst this
      simp only [hlt, if_false]
      have : (xorBytes a b i).drop i = [] := by
        apply List.drop_eq_nil_of_le; rw [xorBytes_length a b i ha hb]
      simp [this]

/-- The whole loop, from index 0. -/
theorem xorLoop_zero (a b c : List Nat) (size fuel : Nat) (hsz : size < UINT32)
    (ha : size ≤ a.length) (hb : size ≤ b.length) (hc : size ≤ c.length) (hf : size < fuel) :
    xorLoop a b size fuel 0 c = .ok (xorBytes a b size ++ c.drop size) := by
  rw [xorLoop_eq a b size hsz ha hb fuel 0 c (Nat.zero_le _) hc (by omega)]
  simp

/-- With a bound of `2^32` or more the `uint32_t` counter stays below the bound for
ever: the loop uses up any fuel. -/
theorem xorLoop_diverges (a b : List Nat) (size : Nat) (hsz : UINT32 ≤ size)
    (ha : size ≤ a.length) (hb : size ≤ b.length) :
    ∀ (fuel i : Nat) (c : List Nat), i < UINT32 → size ≤ c.length →
      xorLoop a b size fuel i c = .timeout := by
  intro fuel
  induction fuel with
  | zero => intro i c _ _; rfl
  | succ fuel ih =>
    intro i c hi hc
    unfold xorLoop
    have hlt : i < size := by omega
    have h1 : i < a.length := by omega
    have h2 : i < b.length := by omega
    have h3 : i < c.length := by omega
    simp only [hlt, if_true, List.getElem?_eq_getElem h1, List.getElem?_eq_getElem h2, h3]
    exact ih _ _ (Nat.mod_lt _ (by unfold UINT32; omega)) (by simpa using hc)

/-- Xoring twice with the same bytes gives the first operand back. -/
theorem zipWith_xor_cancel : ∀ (A B : List Nat), A.length = B.length →
    List.zipWith (fun x y => x ^^^ y) (List.zipWith (fun x y => x ^^^ y) A B) B = A
  | [], _, _ => by simp
  | x :: A, [], h => by simp at h
  | x :: A, y :: B, h => by
    simp only [List.zipWith_cons_cons, List.cons.injEq]
    refine ⟨?_, zipWith_xor_cancel A B (by simpa using h)⟩
    rw [Nat.xor_assoc, Nat.xor_self, Nat.xor_zero]

/-! ## C1: the buffer-buffer XOR is its own inverse -/

/-- C1 (as amended): for every pair of byte buffers `A` and `B` of the same length
`n < 2^32` and output arrays `c`, `d` of at least `n` bytes, both calls of
`XOR (XOR (A, B, n, c), B, n, d)` return (with fuel above `n`), the first `n` bytes of
`d` equal `A` byte for byte, and the bytes of `d` from `n` on are untouched. -/
theorem XOR_buf_self_inverse (A B c d : List Nat) (n fuel : Nat)
    (hA : A.length = n) (hB : B.length = n) (hn : n < UINT32)
    (hc : n ≤ c.length) (hd : n ≤ d.length) (hf : n < fuel) :
    ∃ c1 d1, XOR_buf A B n c fuel = .ok c1 ∧ XOR_buf c1 B n d fuel = .ok d1 ∧
      d1.take n = A ∧ d1.drop n = d.drop n := by
  have hl : (xorBytes A B n).length = n := xorBytes_length A B n (by omega) (by omega)
  refine ⟨xorBytes A B n ++ c.drop n, xorBytes (xorBytes A B n ++ c.drop n) B n ++ d.drop n,
    ?_, ?_, ?_, ?_⟩
  · exact xorLoop_zero A B c n fuel hn (by omega) (by omega) hc hf
  · exact xorLoop_zero _ B d n fuel hn (by simp [hl]) (by omega) hd hf
  · have hl2 : (xorBytes (xorBytes A B n ++ c.drop n) B n).length = n :=
      xorBytes_length _ B n (by simp [hl]) (by omega)
    rw [List.take_append_of_le_length (by omega), List.take_of_length_le (by omega)]
    have e : (xorBytes A B n ++ c.drop n).take n = xorBytes A B n := by
      rw [List.take_append_of_le_length (by omega), List.take_of_length_le (by omega)]
    unfold xorBytes at e ⊢
    rw [e, List.take_of_length_le (by omega), List.take_of_length_le (by omega)]
    exact zipWith_xor_cancel A B (by omega)
  · have hl2 : (xorBytes (xorBytes A B n ++ c.drop n) B n).length = n :=
      xorBytes_length _ B n (by simp [hl]) (by omega)
    rw [List.drop_append_of_le_length (by omega), List.drop_of_length_le (by omega)]
    simp

/-- Witness for C1: three bytes, output arrays of three and four
bytes. -/
theorem XOR_buf_self_inverse_witness :
    ∃ c1 d1, XOR_buf [104, 97, 0] [119, 111, 119] 3 [0, 0, 0] 4 = .ok c1 ∧
      XOR_buf c1 [119, 111, 119] 3 [9, 9, 9, 9] 4 = .ok d1 ∧
      d1.take 3 = [104, 97, 0] ∧ d1.drop 3 = [9, 9, 9, 9].drop 3 :=
  XOR_buf_self_inverse [104, 97, 0] [119, 111, 119] [0, 0, 0] [9, 9, 9, 9] 3 4
    (by decide) (by decide) (by decide) (by decide) (by decide) (by decide)

theorem bigBuffer_length : bigBuffer.length = UINT32 := List.length_replicate _ _

/-- C1 (counterexample): on two buffers of `n = 2^32` bytes the first call
`XOR (A, B, n, c)` returns with no amount of fuel: the `uint32_t` counter wraps to 0
before it reaches the `size_t` bound. -/
theorem XOR_buf_big_never_returns :
    ¬ ∃ fuel c1, XOR_buf bigBuffer bigBuffer UINT32 bigBuffer fuel = .ok c1 := by
  rintro ⟨fuel, c1, h⟩
  have hd := xorLoop_diverges bigBuffer bigBuffer UINT32 (Nat.le_refl _)
    (by rw [bigBuffer_length]) (by rw [bigBuffer_length]) fuel 0 bigBuffer
    (by unfold UINT32; omega) (by rw [bigBuffer_length])
  unfold XOR_buf at h
  rw [hd] at h
  cases h

/-! ## C2, C7: the traffic generator -/

theorem Sim.run_empty (junk : Nat → Nat) (fuel : Nat) (s : Sim) (h : s.queue = []) :
    Sim.run junk fuel s = .ok s := by
  cases fuel with
  | zero => simp [Sim.run, h]
  | succ fuel => simp [Sim.run, h]

theorem chainTrace_succ (socket pktSize pktInterval t n : Nat) :
    chainTrace socket pktSize pktInterval t (n + 1)
      = (t, SockOp.send socket (Packet.ofSize pktSize))
          :: chainTrace socket pktSize pktInterval (t + pktInterval) n := by
  unfold chainTrace
  rw [List.range_succ_eq_map]
  simp only [List.map_cons, List.map_map, List.cons_append, Nat.zero_mul, Nat.add_zero]
  congr 2
  · apply List.map_congr_left
    intro k _
    simp only [Function.comp, Nat.succ_eq_add_one]
    congr 1
    rw [Nat.add_mul]; omega
  · congr 2
    rw [Nat.add_mul]; omega

theorem chainCalls_zero (socket pktSize pktInterval t : Nat) :
    chainCalls socket pktSize pktInterval t 0
      = [(t, Action.generateTraffic socket pktSize 0 pktInterval)] := by
  simp [chainCalls, List.range_succ]

theorem chainCalls_succ (socket pktSize pktInterval t n : Nat) :
    chainCalls socket pktSize pktInterval t (n + 1)
      = (t, Action.generateTraffic socket pktSize (n + 1) pktInterval)
          :: chainCalls socket pktSize pktInterval (t + pktInterval) n := by
  unfold chainCalls
  rw [List.range_succ_eq_map]
  simp only [List.map_cons, List.map_map, Nat.zero_mul, Nat.add_zero, Nat.sub_zero,
    List.cons.injEq, true_and]
  apply List.map_congr_left
  intro k _
  simp only [Function.comp, Nat.succ_eq_add_one, Nat.add_sub_add_right]
  congr 1
  rw [Nat.add_mul]; omega

/-- The run of a generator chain: with a count below `2^32` and `n + 1` rounds or more,
the pending call `GenerateTraffic (socket, pktSize, n, pktInterval)` at `t` unfolds into
`n + 1` calls, `n` sends and one close, and leaves nothing pending. -/
theorem Sim.run_chain (junk : Nat → Nat) (socket pktSize pktInterval : Nat) (g : Globals) :
    ∀ (n extra t now : Nat) (tr : List (Nat × SockOp)) (cl : List (Nat × Action)),
      n < UINT32 →
      Sim.run junk (n + 1 + extra)
          { now := now,
            queue := [(t, Action.generateTraffic socket pktSize n pktInterval)],
            globals := g, trace := tr, calls := cl }
        = .ok { now := t + n * pktInterval, queue := [], globals := g,
                trace := tr ++ chainTrace socket pktSize pktInterval t n,
                calls := cl ++ chainCalls socket pktSize pktInterval t n } := by
  intro n
  induction n with
  | zero =>
    intro extra t now tr cl _
    rw [show 0 + 1 + extra = extra + 1 by omega]
    simp only [Sim.run, Action.run, GenerateTraffic, gt_iff_lt, Nat.lt_irrefl, if_false,
      List.foldl_nil, List.map_cons, List.map_nil]
    rw [Sim.run_empty junk extra _ rfl]
    simp [chainTrace, chainCalls_zero]
  | succ n ih =>
    intro extra t now tr cl hn
    rw [show n + 1 + 1 + extra = (n + 1 + extra) + 1 by omega]
    have hdec : (n + 1 + UINT32 - 1) % UINT32 = n := by
      rw [show n + 1 + UINT32 - 1 = n + UINT32 by omega, Nat.add_mod_right]
      exact Nat.mod_eq_of_lt (by omega)
    simp only [Sim.run, Action.run, GenerateTraffic, gt_iff_lt, Nat.succ_pos, if_true,
      List.foldl_cons, List.foldl_nil, insertEvent, List.map_cons, List.map_nil, hdec]
    rw [ih extra (t + pktInterval) t _ _ (by omega), chainTrace_succ, chainCalls_succ]
    have e : t + pktInterval + n * pktInterval = t + (n + 1) * pktInterval := by
      rw [Nat.add_mul]; omega
    simp only [List.append_assoc, List.singleton_append, e]

/-- C2: for every packet size `s`, count `n` (a `uint32_t`: `n < 2^32`) and interval
`T`, the simulation whose only pending call is `GenerateTraffic (socket, s, n, T)` at
virtual time `t0` runs to the end in `n + 1` rounds (more fuel changes nothing) and its
trace of socket operations is: a packet of size `s` sent at `t0 + k * T` for
`k = 0 .. n - 1`, then one close of the socket at `t0 + n * T`, and nothing else. -/
theorem GenerateTraffic_sends_count_then_closes (junk : Nat → Nat)
    (socket s n T t0 extra : Nat) (g : Globals) (hn : n < UINT32) :
    ∃ fin, Sim.run junk (n + 1 + extra) (Sim.start t0 (Action.generateTraffic socket s n T) g)
        = .ok fin ∧
      fin.queue = [] ∧
      fin.trace =
        (List.range n).map (fun k => (t0 + k * T, SockOp.send socket (Packet.ofSize s)))
          ++ [(t0 + n * T, SockOp.close socket)] ∧
      (Packet.ofSize s).GetSize = s := by
  refine ⟨_, Sim.run_chain junk socket s T g n extra t0 0 [] [] hn, rfl, ?_, ?_⟩
  · simp [chainTrace]
  · simp [Packet.ofSize, Packet.GetSize]

/-- Witness for C2: 3 packets of 1000 bytes. -/
theorem GenerateTraffic_sends_count_then_closes_witness :
    ∃ fin, Sim.run (fun _ => 0) (3 + 1 + 0)
          (Sim.start 1 (Action.generateTraffic 0 1000 3 5) Globals.init) = .ok fin ∧
      fin.queue = [] ∧
      fin.trace =
        (List.range 3).map (fun k => (1 + k * 5, SockOp.send 0 (Packet.ofSize 1000)))
          ++ [(1 + 3 * 5, SockOp.close 0)] ∧
      (Packet.ofSize 1000).GetSize = 1000 :=
  GenerateTraffic_sends_count_then_closes (fun _ => 0) 0 1000 3 5 1 0 Globals.init (by decide)

/-- C7: for every packet size and interval, `GenerateTraffic` with count 0 sends no
packet and schedules nothing: its only effect is the close of the socket.  Run by the
scheduler at `t0`, the close happens at `t0`, in the one call dispatched, and the run
ends there. -/
theorem GenerateTraffic_zero_count (junk : Nat → Nat) (socket s T t0 extra : Nat)
    (g : Globals) :
    GenerateTraffic socket s 0 T = { ops := [SockOp.close socket], scheduled := [] } ∧
    Sim.run junk (extra + 1) (Sim.start t0 (Action.generateTraffic socket s 0 T) g)
      = .ok { now := t0, queue := [], globals := g, trace := [(t0, SockOp.close socket)],
              calls := [(t0, Action.generateTraffic socket s 0 T)] } := by
  refine ⟨by simp [GenerateTraffic], ?_⟩
  have h := Sim.run_chain junk socket s T g 0 extra t0 0 [] [] (by unfold UINT32; omega)
  rw [show 0 + 1 + extra = extra + 1 by omega] at h
  simpa [chainTrace, chainCalls_zero, Sim.start] using h

/-! ## Lemmas on the payload buffer -/

theorem newArray_length (junk : Nat → Nat) (n : Nat) : (newArray junk n).length = n := by
  simp [newArray]

theorem c_str_length (s : List Nat) : (c_str s).length = s.length + 1 := by
  simp [c_str]

/-- From a well-formed state `SetFill` returns, in a well-formed state whose size is
the `uint32_t` value of `fill.size () + 1` and whose storage, when not null, holds that
many leading bytes of the C string. -/
theorem SetFill_total (junk : Nat → Nat) (fill : List Nat) (g : Globals) (hwf : g.WF) :
    ∃ g1, SetFill junk fill g = .ok g1 ∧ g1.WF ∧
      g1.m_dataSize = (fill.length + 1) % UINT32 ∧
      ∀ d, g1.m_data = some d → d = (c_str fill).take ((fill.length + 1) % UINT32) := by
  have hle : (fill.length + 1) % UINT32 ≤ fill.length + 1 := Nat.mod_le _ _
  unfold SetFill
  by_cases hne : (fill.length + 1) % UINT32 ≠ g.m_dataSize
  · simp only [hne, ne_eq, not_false_eq_true, if_true, memcpyPtr, memcpy, c_str_length,
      newArray_length, hle, Nat.le_refl, and_self]
    refine ⟨_, rfl, ?_, rfl, ?_⟩
    · simp only [Globals.WF, List.length_append, List.length_take, List.length_drop,
        c_str_length, newArray_length]
      omega
    · intro d hd
      simp only [Option.some.injEq] at hd
      rw [← hd, List.drop_of_length_le (by rw [newArray_length]), List.append_nil]
  · have heq : (fill.length + 1) % UINT32 = g.m_dataSize := by
      by_contra h; exact hne h
    simp only [heq, ne_eq, not_true_eq_false, if_false]
    rcases hg : g.m_data with _ | d
    · have h0 : g.m_dataSize = 0 := by simpa [Globals.WF, hg] using hwf
      simp only [memcpyPtr, h0, if_true]
      refine ⟨_, rfl, ?_, ?_, ?_⟩
      · simp [Globals.WF]
      · rfl
      · intro d hd; cases hd
    · have hl : d.length = g.m_dataSize := by simpa [Globals.WF, hg] using hwf
      have hle2 : g.m_dataSize ≤ fill.length + 1 := heq ▸ hle
      simp only [memcpyPtr, memcpy, c_str_length, hl, hle2, Nat.le_refl, and_self, if_true]
      refine ⟨_, rfl, ?_, rfl, ?_⟩
      · simp only [Globals.WF, List.length_append, List.length_take, List.length_drop,
          c_str_length, hl]
        omega
      · intro d1 hd
        simp only [Option.some.injEq] at hd
        rw [← hd, List.drop_of_length_le (by omega), List.append_nil]

/-- When `fill.size () + 1` fits a `uint32_t`, `SetFill` from a well-formed state
leaves exactly the C string of `fill` in a storage of `fill.size () + 1` bytes. -/
theorem SetFill_fits (junk : Nat → Nat) (fill : List Nat) (g : Globals) (hwf : g.WF)
    (hlen : fill.length + 1 < UINT32) :
    ∃ g1, SetFill junk fill g = .ok g1 ∧ g1.WF ∧ g1.m_dataSize = fill.length + 1 ∧
      g1.m_data = some (c_str fill) := by
  obtain ⟨g1, h1, hwf1, hs, hd⟩ := SetFill_total junk fill g hwf
  rw [Nat.mod_eq_of_lt hlen] at hs hd
  refine ⟨g1, h1, hwf1, hs, ?_⟩
  rcases hg : g1.m_data with _ | d
  · have : g1.m_dataSize = 0 := by simpa [Globals.WF, hg] using hwf1
    omega
  · rw [hd d hg, List.take_of_length_le (by rw [c_str_length])]

/-- From a well-formed state `SendData` returns: the state is the one `SetFill` leaves
and the only socket operation is one send, of the bytes of the storage. -/
theorem SendData_total (junk : Nat → Nat) (socket : Nat) (data : List Nat) (g : Globals)
    (hwf : g.WF) :
    ∃ g1 p, SetFill junk data g = .ok g1 ∧
      SendData junk socket data g = .ok (g1, [SockOp.send socket p]) ∧
      p.data = (g1.m_data.getD []) := by
  obtain ⟨g1, h1, hwf1, _, _⟩ := SetFill_total junk data g hwf
  unfold SendData
  rw [h1]
  rcases hg : g1.m_data with _ | d
  · have h0 : g1.m_dataSize = 0 := by simpa [Globals.WF, hg] using hwf1
    exact ⟨g1, ⟨[]⟩, rfl, by simp [Packet.ofBuffer, hg, h0], by simp [hg]⟩
  · have hl : d.length = g1.m_dataSize := by simpa [Globals.WF, hg] using hwf1
    refine ⟨g1, ⟨d⟩, rfl, ?_, by simp [hg]⟩
    simp [Packet.ofBuffer, hg, ← hl]

theorem bigText_length : bigText.length = UINT32 := List.length_replicate _ _

theorem replicate_pos (n x : Nat) (h : 0 < n) :
    List.replicate n x = x :: List.replicate (n - 1) x := by
  cases n with
  | zero => omega
  | succ n => rfl

theorem bigText_cons : bigText = 97 :: List.replicate (UINT32 - 1) 97 :=
  replicate_pos UINT32 97 (by unfold UINT32; omega)

/-- `SetFill` of a text whose `uint32_t` size is 1 (a text of `k * 2^32` bytes), in a
state of another size: the storage receives the first byte of the text only. -/
theorem SetFill_size_one (junk : Nat → Nat) (fill : List Nat) (x : Nat) (g : Globals)
    (hs : (fill.length + 1) % UINT32 = 1) (hx : List.take 1 (c_str fill) = [x])
    (h : g.m_dataSize ≠ 1) :
    SetFill junk fill g
      = .ok { m_dataSize := 1, m_data := some [x], allocs := g.allocs + 1 } := by
  have hn : newArray junk 1 = [junk 0] := rfl
  unfold SetFill
  simp only [hs, ne_eq, Ne.symm h, not_false_eq_true, if_true, hn, memcpyPtr, memcpy,
    c_str_length, List.length_singleton, Nat.le_refl, and_true, Nat.le_add_left, hx]
  rfl

theorem bigText_size : (bigText.length + 1) % UINT32 = 1 := by
  rw [bigText_length]; decide

theorem bigText_take : List.take 1 (c_str bigText) = [97] := by
  rw [bigText_cons]; rfl

/-- `SendData` of a text whose `uint32_t` size is 1: a packet of one byte is sent. -/
theorem SendData_size_one (junk : Nat → Nat) (socket : Nat) (fill : List Nat) (x : Nat)
    (g : Globals) (hs : (fill.length + 1) % UINT32 = 1)
    (hx : List.take 1 (c_str fill) = [x]) (h : g.m_dataSize ≠ 1) :
    SendData junk socket fill g
      = .ok ({ m_dataSize := 1, m_data := some [x], allocs := g.allocs + 1 },
             [SockOp.send socket ⟨[x]⟩]) := by
  unfold SendData
  rw [SetFill_size_one junk fill x g hs hx h]
  rfl

/-- When `data.size () + 1` fits a `uint32_t`, `SendData` from a well-formed state
sends the C string of `data` and leaves the state `SetFill` leaves. -/
theorem SendData_fits (junk : Nat → Nat) (socket : Nat) (data : List Nat) (g : Globals)
    (hwf : g.WF) (hlen : data.length + 1 < UINT32) :
    ∃ g1, SetFill junk data g = .ok g1 ∧
      SendData junk socket data g = .ok (g1, [SockOp.send socket ⟨data ++ [0]⟩]) := by
  obtain ⟨g1, h1, hwf1, hs, hd⟩ := SetFill_fits junk data g hwf hlen
  refine ⟨g1, h1, ?_⟩
  unfold SendData
  rw [h1]
  simp [Packet.ofBuffer, hd, hs, c_str]

/-! ## C3: the one-shot sender -/

/-- C3 (as amended): for every text `t` with `len (t) + 1 < 2^32` and every well-formed
prior state of the payload buffer, `SendData (socket, t)` returns; its only socket
operation is one send on `socket` of a packet of `len (t) + 1` bytes, the bytes of `t`
followed by one zero byte (so it does not close the socket); and the payload buffer
after the call is the one `SetFill (t)` leaves. -/
theorem SendData_sends_text (junk : Nat → Nat) (socket : Nat) (t : List Nat) (g : Globals)
    (hwf : g.WF) (hlen : t.length + 1 < UINT32) :
    ∃ g1, SetFill junk t g = .ok g1 ∧
      SendData junk socket t g = .ok (g1, [SockOp.send socket ⟨t ++ [0]⟩]) ∧
      (Packet.mk (t ++ [0])).GetSize = t.length + 1 := by
  obtain ⟨g1, h1, h2⟩ := SendData_fits junk socket t g hwf hlen
  exact ⟨g1, h1, h2, by simp [Packet.GetSize]⟩

/-- Witness for C3: the text "haha" from the initial state, a packet
of 5 bytes. -/
theorem SendData_sends_text_witness :
    ∃ g1, SetFill (fun _ => 0) (lit "haha") Globals.init = .ok g1 ∧
      SendData (fun _ => 0) 7 (lit "haha") Globals.init
        = .ok (g1, [SockOp.send 7 ⟨lit "haha" ++ [0]⟩]) ∧
      (Packet.mk (lit "haha" ++ [0])).GetSize = (lit "haha").length + 1 :=
  SendData_sends_text (fun _ => 0) 7 (lit "haha") Globals.init (by decide) (by decide)

/-- C3 (counterexample): for the text of `2^32` bytes, from the initial state,
`SendData` sends a packet of one byte, the first byte of the text without a terminator,
not a packet of `len (t) + 1` bytes. -/
theorem SendData_bigText_sends_one_byte :
    SendData (fun _ => 0) 0 bigText Globals.init
        = .ok ({ m_dataSize := 1, m_data := some [97], allocs := 1 },
               [SockOp.send 0 ⟨[97]⟩]) ∧
      (Packet.mk [97]).GetSize ≠ bigText.length + 1 := by
  refine ⟨SendData_size_one (fun _ => 0) 0 bigText 97 Globals.init bigText_size bigText_take
    (by decide), ?_⟩
  rw [bigText_length]
  decide

/-! ## C4: a second fill overwrites the first -/

/-- C4 (as amended): for every text `x`, every text `y` with `len (y) + 1 < 2^32` and
every well-formed prior state, `SetFill (x)` followed by `SetFill (y)` returns and
leaves a buffer of size `len (y) + 1` holding exactly the bytes of `y` and a zero
terminator: the size and content `SetFill (y)` alone leaves.  The indeterminate bytes of
fresh storage (`junk1`, `junk2`, `junk3`) play no part. -/
theorem SetFill_twice_overwrites (junk1 junk2 junk3 : Nat → Nat) (x y : List Nat)
    (g : Globals) (hwf : g.WF) (hy : y.length + 1 < UINT32) :
    ∃ g1 g2 g3, SetFill junk1 x g = .ok g1 ∧ SetFill junk2 y g1 = .ok g2 ∧
      g2.m_dataSize = y.length + 1 ∧ g2.m_data = some (y ++ [0]) ∧
      SetFill junk3 y g = .ok g3 ∧
      g3.m_dataSize = g2.m_dataSize ∧ g3.m_data = g2.m_data := by
  obtain ⟨g1, h1, hwf1, _, _⟩ := SetFill_total junk1 x g hwf
  obtain ⟨g2, h2, _, hs2, hd2⟩ := SetFill_fits junk2 y g1 hwf1 hy
  obtain ⟨g3, h3, _, hs3, hd3⟩ := SetFill_fits junk3 y g hwf hy
  exact ⟨g1, g2, g3, h1, h2, hs2, hd2, h3, by rw [hs2, hs3], by rw [hd2, hd3]⟩

/-- Witness for C4: "longstring" then "ab", from the initial
state, with fresh storage full of the byte 255. -/
theorem SetFill_twice_overwrites_witness :
    ∃ g1 g2 g3, SetFill (fun _ => 255) (lit "longstring") Globals.init = .ok g1 ∧
      SetFill (fun _ => 255) (lit "ab") g1 = .ok g2 ∧
      g2.m_dataSize = (lit "ab").length + 1 ∧ g2.m_data = some (lit "ab" ++ [0]) ∧
      SetFill (fun _ => 255) (lit "ab") Globals.init = .ok g3 ∧
      g3.m_dataSize = g2.m_dataSize ∧ g3.m_data = g2.m_data :=
  SetFill_twice_overwrites (fun _ => 255) (fun _ => 255) (fun _ => 255) (lit "longstring")
    (lit "ab") Globals.init (by decide) (by decide)

/-- C4 (counterexample): `SetFill ("x")` followed by `SetFill` of the text of `2^32`
bytes leaves a buffer of size 1 holding the first byte of that text and no terminator,
not a buffer of size `len (y) + 1`. -/
theorem SetFill_then_bigText :
    ∃ g1, SetFill (fun _ => 0) (lit "x") Globals.init = .ok g1 ∧
      SetFill (fun _ => 0) bigText g1
        = .ok { m_dataSize := 1, m_data := some [97], allocs := 2 } ∧
      1 ≠ bigText.length + 1 := by
  refine ⟨{ m_dataSize := 2, m_data := some [120, 0], allocs := 1 }, by decide, ?_, ?_⟩
  · exact SetFill_size_one (fun _ => 0) bigText 97 _ bigText_size bigText_take (by decide)
  · rw [bigText_length]; decide

/-! ## C5, C6: the XOR overloads on texts -/

theorem zeroExtend_length (s : List Nat) (n : Nat) (h : s.length ≤ n) :
    (zeroExtend s n).length = n := by
  simp [zeroExtend]; omega

/-- Copying a C string into a zero-filled array it fits in leaves the text extended
with zero bytes. -/
theorem memcpy_zeroArray (s : List Nat) (size : Nat) (h : s.length + 1 ≤ size) :
    memcpy (zeroArray size) (c_str s) (s.length + 1) = .ok (zeroExtend s size) := by
  unfold memcpy
  simp only [c_str_length, zeroArray, List.length_replicate, Nat.le_refl, h, and_self, if_true]
  congr 1
  rw [List.take_of_length_le (by rw [c_str_length]), List.drop_replicate]
  unfold c_str zeroExtend
  rw [List.append_assoc]
  congr 1
  rw [show size - s.length = (size - (s.length + 1)) + 1 by omega, List.replicate_succ]
  rfl

/-- Copying a C string into an array too short for it is a fault. -/
theorem memcpy_zeroArray_fault (s : List Nat) (size : Nat) (h : size < s.length + 1) :
    memcpy (zeroArray size) (c_str s) (s.length + 1) = .fault := by
  unfold memcpy
  simp only [zeroArray, List.length_replicate]
  rw [if_neg (by omega)]

/-- C5 (as amended): for every two texts `a` and `b` with
`size = max (len (a), len (b)) + 1 < 2^32` and every output array `c` of at least `size`
bytes, the text-text `XOR (a, b, c)` returns (with fuel above `size`); it overwrites
exactly the first `size` bytes of `c`, byte `i` with `a1[i] xor b1[i]`, where `a1` and
`b1` are `a` and `b` extended with zero bytes to `size` bytes; the first zero byte
after each text, its terminator, is at index `len (a)`, respectively `len (b)`. -/
theorem XOR_text_zero_extends (a b c : List Nat) (fuel : Nat)
    (hsz : max a.length b.length + 1 < UINT32)
    (hc : max a.length b.length + 1 ≤ c.length) (hf : max a.length b.length + 1 < fuel) :
    XOR_text a b c fuel
        = .ok (List.zipWith (fun x y => x ^^^ y)
                  (zeroExtend a (max a.length b.length + 1))
                  (zeroExtend b (max a.length b.length + 1))
                ++ c.drop (max a.length b.length + 1)) ∧
      (zeroExtend a (max a.length b.length + 1)).length = max a.length b.length + 1 ∧
      (zeroExtend b (max a.length b.length + 1)).length = max a.length b.length + 1 ∧
      (zeroExtend a (max a.length b.length + 1))[a.length]? = some 0 ∧
      (zeroExtend b (max a.length b.length + 1))[b.length]? = some 0 := by
  have ha : a.length ≤ max a.length b.length := Nat.le_max_left _ _
  have hb : b.length ≤ max a.length b.length := Nat.le_max_right _ _
  unfold XOR_text
  simp only []
  generalize max a.length b.length = m at *
  have hla := zeroExtend_length a (m + 1) (by omega)
  have hlb := zeroExtend_length b (m + 1) (by omega)
  refine ⟨?_, hla, hlb, ?_, ?_⟩
  · simp only [Nat.mod_eq_of_lt hsz]
    rw [memcpy_zeroArray a (m + 1) (by omega), memcpy_zeroArray b (m + 1) (by omega)]
    simp only []
    rw [xorLoop_zero _ _ c (m + 1) fuel hsz (by omega) (by omega) hc hf]
    unfold xorBytes
    rw [List.take_of_length_le (by omega), List.take_of_length_le (by omega)]
  · unfold zeroExtend
    rw [List.getElem?_append_right (Nat.le_refl _)]
    simp [List.getElem?_replicate]; omega
  · unfold zeroExtend
    rw [List.getElem?_append_right (Nat.le_refl _)]
    simp [List.getElem?_replicate]; omega

/-- Witness for C5: "haha" and "wo", five bytes written into an
array of six. -/
theorem XOR_text_zero_extends_witness :
    XOR_text (lit "haha") (lit "wo") [9, 9, 9, 9, 9, 9] 6
        = .ok (List.zipWith (fun x y => x ^^^ y)
                  (zeroExtend (lit "haha") (max (lit "haha").length (lit "wo").length + 1))
                  (zeroExtend (lit "wo") (max (lit "haha").length (lit "wo").length + 1))
                ++ [9, 9, 9, 9, 9, 9].drop (max (lit "haha").length (lit "wo").length + 1)) ∧
      (zeroExtend (lit "haha") (max (lit "haha").length (lit "wo").length + 1)).length
        = max (lit "haha").length (lit "wo").length + 1 ∧
      (zeroExtend (lit "wo") (max (lit "haha").length (lit "wo").length + 1)).length
        = max (lit "haha").length (lit "wo").length + 1 ∧
      (zeroExtend (lit "haha") (max (lit "haha").length (lit "wo").length + 1))[(lit "haha").length]?
        = some 0 ∧
      (zeroExtend (lit "wo") (max (lit "haha").length (lit "wo").length + 1))[(lit "wo").length]?
        = some 0 :=
  XOR_text_zero_extends (lit "haha") (lit "wo") [9, 9, 9, 9, 9, 9] 6
    (by decide) (by decide) (by decide)

/-- The text-text XOR faults when the `uint32_t` size is too small for the first
text. -/
theorem XOR_text_fault (a b c : List Nat) (fuel : Nat)
    (h : (max a.length b.length + 1) % UINT32 < a.length + 1) :
    XOR_text a b c fuel = .fault := by
  unfold XOR_text
  simp only [memcpy_zeroArray_fault a _ h]

/-- C5 (counterexample): for the text of `2^32` bytes and the empty text the
`uint32_t` size is 1; the copy of the first text into its one-byte scratch array runs
past the array, so the call yields no result, whatever the output array and fuel. -/
theorem XOR_text_bigText_faults :
    ¬ ∃ c fuel r, XOR_text bigText [] c fuel = .ok r := by
  rintro ⟨c, fuel, r, h⟩
  rw [XOR_text_fault bigText [] c fuel (by rw [bigText_length]; decide)] at h
  cases h

/-- The buffer-text XOR when the C string of the text fits the scratch array
(`len (b) + 1 <= size < 2^32`): the text is zero-padded to `size` bytes and xored into
the first `size` bytes of `c`. -/
theorem XOR_str_fits (a b c : List Nat) (size fuel : Nat) (hb : b.length + 1 ≤ size)
    (hsz : size < UINT32) (ha : size ≤ a.length) (hc : size ≤ c.length) (hf : size < fuel) :
    XOR_str a b size c fuel = .ok (xorBytes a (zeroExtend b size) size ++ c.drop size) := by
  unfold XOR_str
  rw [memcpy_zeroArray b size hb]
  simp only []
  exact xorLoop_zero a _ c size fuel hsz ha
    (by rw [zeroExtend_length b size (by omega)]) hc hf

/-- The buffer-text XOR when the C string of the text does not fit the scratch array
(`len (b) + 1 > size`): the copy writes past the array, whatever the other arguments. -/
theorem XOR_str_fault (a b c : List Nat) (size fuel : Nat) (hb : size < b.length + 1) :
    XOR_str a b size c fuel = .fault := by
  unfold XOR_str
  rw [memcpy_zeroArray_fault b size hb]

/-- C6 (failing input): the buffer-text XOR of the one-byte buffer "h" and the text
"wo" with `size = 1` copies the three bytes of the C string "wo" into the one-byte
scratch array `b1`: a write outside the array, not a truncation. -/
theorem XOR_str_long_text_overflows : XOR_str [104] (lit "wo") 1 [0] 2 = .fault := by
  decide

/-! ## C8: the payload buffer invariant -/

theorem BufCall.run_eq_SetFill (junk : Nat → Nat) (c : BufCall) (g : Globals) (hwf : g.WF) :
    c.run junk g = SetFill junk c.content g := by
  cases c with
  | setFill fill => rfl
  | sendData socket data =>
    obtain ⟨g1, p, h1, h2, _⟩ := SendData_total junk socket data g hwf
    simp [BufCall.run, BufCall.content, h1, h2]

theorem BufCall.run_setFill (junk : Nat → Nat) (fill : List Nat) (g : Globals) :
    (BufCall.setFill fill).run junk g = SetFill junk fill g := rfl

theorem runCalls_single (junk : Nat → Nat) (c : BufCall) (g : Globals) :
    runCalls junk [c] g = c.run junk g := by
  simp only [runCalls]
  cases c.run junk g <;> rfl

theorem runCalls_total (junk : Nat → Nat) :
    ∀ (cs : List BufCall) (g : Globals), g.WF → ∃ g1, runCalls junk cs g = .ok g1 ∧ g1.WF
  | [], g, hwf => ⟨g, rfl, hwf⟩
  | c :: cs, g, hwf => by
    obtain ⟨g1, h1, hwf1, _, _⟩ := SetFill_total junk c.content g hwf
    obtain ⟨g2, h2, hwf2⟩ := runCalls_total junk cs g1 hwf1
    refine ⟨g2, ?_, hwf2⟩
    simp [runCalls, BufCall.run_eq_SetFill junk c g hwf, h1, h2]

theorem runCalls_append (junk : Nat → Nat) (c : BufCall) :
    ∀ (cs : List BufCall) (g g1 : Globals), runCalls junk cs g = .ok g1 →
      runCalls junk (cs ++ [c]) g = c.run junk g1
  | [], g, g1, h => by
    simp only [runCalls, Res.ok.injEq] at h
    subst h
    simp only [List.nil_append, runCalls]
    cases c.run junk g <;> rfl
  | c1 :: cs, g, g1, h => by
    simp only [List.cons_append, runCalls] at h ⊢
    cases h2 : c1.run junk g with
    | ok g2 =>
      simp only [h2] at h ⊢
      exact runCalls_append junk c cs g2 g1 h
    | fault => simp [h2] at h
    | timeout => simp [h2] at h

/-- C8 (as amended): for every sequence of `SetFill` and `SendData` calls run from the
initial state (size 0, null storage) that ends with a call `c` filling the buffer with
a content of `len + 1 < 2^32` bytes including the terminator, the run returns, the
recorded size `m_dataSize` is `len + 1`, the storage has exactly that many bytes, and
its last byte is the zero terminator. -/
theorem payload_invariant (junk : Nat → Nat) (cs : List BufCall) (c : BufCall)
    (hlen : c.content.length + 1 < UINT32) :
    ∃ g d, runCalls junk (cs ++ [c]) Globals.init = .ok g ∧
      g.m_dataSize = c.content.length + 1 ∧ g.m_data = some d ∧
      d.length = c.content.length + 1 ∧ d.getLast? = some 0 := by
  obtain ⟨g1, h1, hwf1⟩ := runCalls_total junk cs Globals.init (by decide)
  obtain ⟨g, h2, _, hs, hd⟩ := SetFill_fits junk c.content g1 hwf1 hlen
  refine ⟨g, c_str c.content, ?_, hs, hd, c_str_length _, by simp [c_str]⟩
  rw [runCalls_append junk c cs _ g1 h1, BufCall.run_eq_SetFill junk c g1 hwf1, h2]

/-- Witness for C8: `SetFill ("longstring")`, `SendData ("haha")`, then
`SetFill ("ab")`. -/
theorem payload_invariant_witness :
    ∃ g d, runCalls (fun _ => 255)
          ([BufCall.setFill (lit "longstring"), BufCall.sendData 0 (lit "haha")]
            ++ [BufCall.setFill (lit "ab")]) Globals.init = .ok g ∧
      g.m_dataSize = (BufCall.setFill (lit "ab")).content.length + 1 ∧ g.m_data = some d ∧
      d.length = (BufCall.setFill (lit "ab")).content.length + 1 ∧ d.getLast? = some 0 :=
  payload_invariant (fun _ => 255)
    [BufCall.setFill (lit "longstring"), BufCall.sendData 0 (lit "haha")]
    (BufCall.setFill (lit "ab")) (by decide)

/-- C8 (counterexample): the state reached from the initial state by the single call
`SetFill` of the text of `2^32` bytes has recorded size 1, not `len + 1`, and a storage
of one byte that is not a zero terminator. -/
theorem payload_invariant_fails_at_bigText :
    runCalls (fun _ => 0) [BufCall.setFill bigText] Globals.init
        = .ok { m_dataSize := 1, m_data := some [97], allocs := 1 } ∧
      1 ≠ bigText.length + 1 := by
  refine ⟨?_, by rw [bigText_length]; decide⟩
  rw [runCalls_single, BufCall.run_setFill]
  exact SetFill_size_one (fun _ => 0) bigText 97 Globals.init bigText_size bigText_take
    (by decide)

/-! ## C9, C10: the tracers -/

theorem upToZero_of_no_zero (t rest : List Nat) (h : ∀ x ∈ t, x ≠ 0) :
    upToZero (t ++ 0 :: rest) = t := by
  unfold upToZero
  induction t with
  | nil => simp
  | cons x t ih =>
    have hx : x ≠ 0 := h x (List.mem_cons_self _ _)
    simp only [List.cons_append, List.takeWhile_cons, hx, ne_eq, not_false_eq_true,
      decide_True, if_true, List.cons.injEq, true_and]
    exact ih (fun y hy => h y (List.mem_cons_of_mem _ hy))

/-- Reading an array with a zero byte as text gives the bytes before the first one. -/
theorem readText_append_zero (rest : List Nat) :
    ∀ d : List Nat, readText (d ++ 0 :: rest) = .ok (upToZero (d ++ 0 :: rest))
  | [] => by simp [readText, upToZero]
  | x :: d => by
    by_cases hx : x = 0
    · simp [readText, upToZero, hx]
    · rw [List.cons_append]
      unfold readText
      rw [if_neg hx, readText_append_zero rest d]
      simp [upToZero, hx]

/-- The line the subscription tracer logs for a source of the internet family and a
packet whose size plus one fits a `uint32_t`: the text is the payload up to its first
zero byte. -/
theorem TwoAddressTrace_inet (F : Fmt) (junk : Nat → Nat) (now : Nat) (context : List Nat)
    (p : Packet) (S ps : Nat) (destAddr : Address) (hp : p.GetSize + 1 < UINT32) :
    TwoAddressTrace F junk now context p (.inet S ps) destAddr
      = .ok ((match destAddr with
              | .inet ipv4 _ => F.seconds now ++ lit " " ++ F.ipv4 ipv4
              | .other _ => F.seconds now)
            ++ lit " received one packet from " ++ F.ipv4 S ++ lit ". data: "
            ++ upToZero (p.data ++ [0])) := by
  unfold TwoAddressTrace
  simp only [Packet.GetSize] at hp ⊢
  have hl : (newArray junk (p.data.length + 1)).length = p.data.length + 1 :=
    newArray_length _ _
  obtain ⟨x, hx⟩ : ∃ x, List.drop p.data.length (newArray junk (p.data.length + 1)) = [x] := by
    apply List.length_eq_one.mp
    rw [List.length_drop, hl]; omega
  have hcopy : p.CopyData (newArray junk (p.data.length + 1)) p.data.length
      = .ok (p.data ++ [x]) := by
    unfold Packet.CopyData memcpy
    rw [if_pos (by rw [hl]; simp [Packet.GetSize])]
    simp only [Nat.min_self, Packet.GetSize, List.take_length, hx]
  have hstore : store (p.data ++ [x]) p.data.length 0 = .ok (p.data ++ [0]) := by
    unfold store
    rw [if_pos (by simp)]
    simp
  simp only [Nat.mod_eq_of_lt hp, hcopy, hstore, readText_append_zero [] p.data]

/-- The subscription tracer faults on a packet of `2^32 - 1` bytes from a source of the
internet family: its buffer of `GetSize () + 1` bytes, a `uint32_t` sum, has no byte. -/
theorem TwoAddressTrace_fault (F : Fmt) (junk : Nat → Nat) (now : Nat) (context : List Nat)
    (p : Packet) (S ps : Nat) (destAddr : Address) (hp : p.GetSize + 1 = UINT32) :
    TwoAddressTrace F junk now context p (.inet S ps) destAddr = .fault := by
  have h0 : (p.GetSize + 1) % UINT32 = 0 := by rw [hp]; exact Nat.mod_self _
  have hpos : 0 < p.GetSize := by
    have : 1 < UINT32 := by unfold UINT32; omega
    omega
  have hcopy : p.CopyData (newArray junk 0) p.GetSize = .fault := by
    unfold Packet.CopyData memcpy
    rw [if_neg (by simp [newArray]; omega)]
  unfold TwoAddressTrace
  simp only [h0, hcopy]

/-- C9: for every packet and every source address that is not of the internet family,
both tracers return without a fault and produce the generic line: the time, then
" node <id>" in the polling variant and " <destination IPv4>" in the subscription
variant when the destination is of the internet family, then " received one packet!".
The line is the same for every packet: the payload is not read. -/
theorem tracers_generic_line (F : Fmt) (junk : Nat → Nat) (now nodeId : Nat)
    (context : List Nat) (p : Packet) (type : Nat) (destAddr : Address) :
    PrintReceivedPacket F junk now nodeId p (.other type)
        = .ok (F.seconds now ++ lit " node " ++ F.nodeId nodeId ++ lit " received one packet!") ∧
      TwoAddressTrace F junk now context p (.other type) destAddr
        = .ok ((match destAddr with
                | .inet ipv4 _ => F.seconds now ++ lit " " ++ F.ipv4 ipv4
                | .other _ => F.seconds now)
              ++ lit " received one packet!") := by
  constructor
  · rfl
  · cases destAddr <;> rfl

/-- C10 (as amended): for every text `t` without a zero byte and with
`len (t) + 2 < 2^32`, from every well-formed state, `SendData (socket, t)` sends one
packet, and `TwoAddressTrace` on that packet with source `S` and destination `D` of the
internet family at time `now` returns the line
"<now> <D ip> received one packet from <S ip>. data: <t>": destination before source,
and the decoded text exactly `t`. -/
theorem SendData_TwoAddressTrace_round_trip (F : Fmt) (junk junk1 : Nat → Nat)
    (socket now S ps D pd : Nat) (context t : List Nat) (g : Globals) (hwf : g.WF)
    (hlen : t.length + 2 < UINT32) (hz : ∀ x ∈ t, x ≠ 0) :
    ∃ g1 p, SendData junk socket t g = .ok (g1, [SockOp.send socket p]) ∧
      TwoAddressTrace F junk1 now context p (.inet S ps) (.inet D pd)
        = .ok (F.seconds now ++ lit " " ++ F.ipv4 D ++ lit " received one packet from "
                ++ F.ipv4 S ++ lit ". data: " ++ t) := by
  obtain ⟨g1, _, h2⟩ := SendData_fits junk socket t g hwf (by omega)
  refine ⟨g1, ⟨t ++ [0]⟩, h2, ?_⟩
  rw [TwoAddressTrace_inet F junk1 now context ⟨t ++ [0]⟩ S ps (.inet D pd)
    (by simp [Packet.GetSize]; omega)]
  simp only [List.append_assoc, List.singleton_append, upToZero_of_no_zero t [0] hz]

/-- Witness for C10: "haha" sent from the initial
state, traced at time 2 with source 1 and destination 9. -/
theorem SendData_TwoAddressTrace_round_trip_witness :
    ∃ g1 p, SendData (fun _ => 255) 0 (lit "haha") Globals.init
          = .ok (g1, [SockOp.send 0 p]) ∧
      TwoAddressTrace digitFmt (fun _ => 255) 2 [] p (.inet 1 80) (.inet 9 80)
        = .ok (digitFmt.seconds 2 ++ lit " " ++ digitFmt.ipv4 9
                ++ lit " received one packet from " ++ digitFmt.ipv4 1 ++ lit ". data: "
                ++ lit "haha") :=
  SendData_TwoAddressTrace_round_trip digitFmt (fun _ => 255) (fun _ => 255) 0 2 1 80 9 80 []
    (lit "haha") Globals.init (by decide) (by decide) (by decide)

theorem longText_length : longText.length = UINT32 - 2 := List.length_replicate _ _

/-- For a text of `2^32 - 2` bytes `SendData` sends a packet the subscription tracer
faults on. -/
theorem SendData_TwoAddressTrace_fault (F : Fmt) (junk junk1 : Nat → Nat)
    (socket now S ps : Nat) (context t : List Nat) (destAddr : Address) (g : Globals)
    (hwf : g.WF) (hlen : t.length + 2 = UINT32) :
    ∃ g1 p, SendData junk socket t g = .ok (g1, [SockOp.send socket p]) ∧
      TwoAddressTrace F junk1 now context p (.inet S ps) destAddr = .fault := by
  obtain ⟨g1, _, h2⟩ := SendData_fits junk socket t g hwf (by omega)
  refine ⟨g1, ⟨t ++ [0]⟩, h2, ?_⟩
  apply TwoAddressTrace_fault
  simp only [Packet.GetSize, List.length_append, List.length_singleton]
  omega

theorem replicate_ne_zero (n a : Nat) (ha : a ≠ 0) : ∀ x ∈ List.replicate n a, x ≠ 0 := by
  intro x hx
  rw [List.eq_of_mem_replicate hx]
  exact ha

/-- C10 (counterexample): for the text of `2^32 - 2` bytes without a zero byte,
`SendData` from the initial state sends a packet of `2^32 - 1` bytes, and
`TwoAddressTrace` on that packet faults instead of logging a line: its buffer of
`GetSize () + 1` bytes is an array of no byte. -/
theorem TwoAddressTrace_faults_on_longText :
    (∀ x ∈ longText, x ≠ 0) ∧
      ∃ g1 p, SendData (fun _ => 0) 0 longText Globals.init = .ok (g1, [SockOp.send 0 p]) ∧
        TwoAddressTrace digitFmt (fun _ => 0) 2 [] p (.inet 1 80) (.inet 9 80) = .fault :=
  ⟨replicate_ne_zero (UINT32 - 2) 97 (by decide),
   SendData_TwoAddressTrace_fault digitFmt (fun _ => 0) (fun _ => 0) 0 2 1 80 [] longText
     (.inet 9 80) Globals.init (by decide) (by rw [longText_length]; decide)⟩

/-! ## C11: a repeated fill -/

/-- `SetFill` in a well-formed state that already holds the size and the bytes it is
about to write returns that very state: no allocation, no change of size or content. -/
theorem SetFill_again (junk : Nat → Nat) (fill : List Nat) (g : Globals) (hwf : g.WF)
    (hs : g.m_dataSize = (fill.length + 1) % UINT32)
    (hd : ∀ d, g.m_data = some d → d = (c_str fill).take ((fill.length + 1) % UINT32)) :
    SetFill junk fill g = .ok g := by
  have hle : (fill.length + 1) % UINT32 ≤ fill.length + 1 := Nat.mod_le _ _
  unfold SetFill
  simp only [← hs, ne_eq, not_true_eq_false, if_false]
  rcases g with ⟨sz, data, al⟩
  cases data with
  | none =>
    have h0 : sz = 0 := by simpa [Globals.WF] using hwf
    subst h0
    simp [memcpyPtr]
  | some d =>
    have hl : d.length = sz := by simpa [Globals.WF] using hwf
    have hdd := hd d rfl
    simp only at hs
    simp only [memcpyPtr, memcpy, c_str_length, hl, ← hs, Nat.le_refl, and_true]
    rw [if_pos (by omega), List.drop_of_length_le (by omega), List.append_nil, hs, ← hdd]

/-- C11: for every text `t` and every well-formed prior state of the payload buffer,
`SetFill (t)` returns, and a second `SetFill (t)` directly after it returns the very
same state: the size is unchanged, the allocation counter is unchanged (the second call
neither releases nor allocates, so the storage is the same allocation), and the content
is unchanged.  The indeterminate bytes of fresh storage play no part. -/
theorem SetFill_idempotent (junk1 junk2 : Nat → Nat) (t : List Nat) (g : Globals)
    (hwf : g.WF) :
    ∃ g1, SetFill junk1 t g = .ok g1 ∧ SetFill junk2 t g1 = .ok g1 := by
  obtain ⟨g1, h1, hwf1, hs, hd⟩ := SetFill_total junk1 t g hwf
  exact ⟨g1, h1, SetFill_again junk2 t g1 hwf1 hs hd⟩

/-- Witness for C11: "haha" filled twice from the initial state. -/
theorem SetFill_idempotent_witness :
    ∃ g1, SetFill (fun _ => 255) (lit "haha") Globals.init = .ok g1 ∧
      SetFill (fun _ => 7) (lit "haha") g1 = .ok g1 :=
  SetFill_idempotent (fun _ => 255) (fun _ => 7) (lit "haha") Globals.init (by decide)

/-! ## C12: XOR is commutative -/

theorem zipWith_xor_comm : ∀ (A B : List Nat),
    List.zipWith (fun x y => x ^^^ y) A B = List.zipWith (fun x y => x ^^^ y) B A
  | [], [] => rfl
  | [], _ :: _ => rfl
  | _ :: _, [] => rfl
  | x :: A, y :: B => by
    simp only [List.zipWith_cons_cons, List.cons.injEq]
    exact ⟨Nat.xor_comm x y, zipWith_xor_comm A B⟩

theorem xorBytes_comm (a b : List Nat) (size : Nat) : xorBytes a b size = xorBytes b a size :=
  zipWith_xor_comm _ _

/-- The loop has the same outcome with its two operands exchanged, from every index,
with every fuel: the same bytes, the same fault, or the same exhaustion of the fuel. -/
theorem xorLoop_comm (a b : List Nat) (size : Nat) :
    ∀ (fuel i : Nat) (c : List Nat), xorLoop a b size fuel i c = xorLoop b a size fuel i c := by
  intro fuel
  induction fuel with
  | zero => intro i c; rfl
  | succ fuel ih =>
    intro i c
    unfold xorLoop
    by_cases hlt : i < size
    · simp only [hlt, if_true]
      cases ha : a[i]? with
      | none => cases hb : b[i]? <;> rfl
      | some x =>
        cases hb : b[i]? with
        | none => rfl
        | some y =>
          simp only []
          rw [Nat.xor_comm x y, ih]
    · simp only [hlt, if_false]

theorem memcpy_ne_timeout (dst src : List Nat) (n : Nat) : memcpy dst src n ≠ .timeout := by
  unfold memcpy
  split <;> simp

/-- The text-text XOR has the same outcome with its two texts exchanged. -/
theorem XOR_text_comm (a b c : List Nat) (fuel : Nat) :
    XOR_text a b c fuel = XOR_text b a c fuel := by
  unfold XOR_text
  simp only [Nat.max_comm b.length a.length]
  cases h1 : memcpy (zeroArray ((max a.length b.length + 1) % UINT32)) (c_str a) (a.length + 1)
    <;> cases h2 :
      memcpy (zeroArray ((max a.length b.length + 1) % UINT32)) (c_str b) (b.length + 1)
    <;> simp only []
  · exact xorLoop_comm _ _ _ _ _ _
  · exact absurd h2 (memcpy_ne_timeout _ _ _)
  · exact absurd h1 (memcpy_ne_timeout _ _ _)

/-- The text-text XOR when `size = max (len (a), len (b)) + 1` fits a `uint32_t`: the
first `size` bytes of `c` receive the xor of the two zero-extended texts. -/
theorem XOR_text_fits (a b c : List Nat) (fuel m : Nat) (hm : max a.length b.length + 1 = m)
    (hsz : m < UINT32) (hc : m ≤ c.length) (hf : m < fuel) :
    XOR_text a b c fuel = .ok (xorBytes (zeroExtend a m) (zeroExtend b m) m ++ c.drop m) := by
  have ha : a.length ≤ max a.length b.length := Nat.le_max_left _ _
  have hb : b.length ≤ max a.length b.length := Nat.le_max_right _ _
  unfold XOR_text
  simp only [hm, Nat.mod_eq_of_lt hsz]
  rw [memcpy_zeroArray a m (by omega), memcpy_zeroArray b m (by omega)]
  simp only []
  exact xorLoop_zero _ _ c m fuel hsz (by rw [zeroExtend_length a m (by omega)])
    (by rw [zeroExtend_length b m (by omega)]) hc hf

theorem take_xorBytes_append (a b rest : List Nat) (size : Nat) (ha : size ≤ a.length)
    (hb : size ≤ b.length) : (xorBytes a b size ++ rest).take size = xorBytes a b size := by
  have hl := xorBytes_length a b size ha hb
  rw [List.take_append_of_le_length (by omega), List.take_of_length_le (by omega)]

/-- C12: the two calls `XOR (A, B, n, c)` and `XOR (B, A, n, c)` have the same outcome,
and so have the text-text calls `XOR (a, b, c)` and `XOR (b, a, c)`, for all arguments
and every fuel.  For buffers of the same length `n < 2^32` both buffer calls return,
into any two output arrays of at least `n` bytes, and the `n` bytes they write are the
same; for texts with `max (len (a), len (b)) + 1 < 2^32` both text calls return and the
`max (len (a), len (b)) + 1` bytes they write are the same. -/
theorem XOR_commutative (A B a b c c1 c2 : List Nat) (n fuel : Nat) :
    XOR_buf A B n c fuel = XOR_buf B A n c fuel ∧
    XOR_text a b c fuel = XOR_text b a c fuel ∧
    (A.length = n → B.length = n → n < UINT32 → n ≤ c1.length → n ≤ c2.length → n < fuel →
      ∃ r1 r2, XOR_buf A B n c1 fuel = .ok r1 ∧ XOR_buf B A n c2 fuel = .ok r2 ∧
        r1.take n = r2.take n) ∧
    (max a.length b.length + 1 < UINT32 → max a.length b.length + 1 ≤ c1.length →
      max a.length b.length + 1 ≤ c2.length → max a.length b.length + 1 < fuel →
      ∃ r1 r2, XOR_text a b c1 fuel = .ok r1 ∧ XOR_text b a c2 fuel = .ok r2 ∧
        r1.take (max a.length b.length + 1) = r2.take (max a.length b.length + 1)) := by
  refine ⟨xorLoop_comm A B n fuel 0 c, XOR_text_comm a b c fuel, ?_, ?_⟩
  · intro hA hB hn h1 h2 hf
    refine ⟨_, _, xorLoop_zero A B c1 n fuel hn (by omega) (by omega) h1 hf,
      xorLoop_zero B A c2 n fuel hn (by omega) (by omega) h2 hf, ?_⟩
    rw [take_xorBytes_append A B _ n (by omega) (by omega),
      take_xorBytes_append B A _ n (by omega) (by omega), xorBytes_comm]
  · intro hsz h1 h2 hf
    have ha : a.length ≤ max a.length b.length := Nat.le_max_left _ _
    have hb : b.length ≤ max a.length b.length := Nat.le_max_right _ _
    have hla := zeroExtend_length a (max a.length b.length + 1) (by omega)
    have hlb := zeroExtend_length b (max a.length b.length + 1) (by omega)
    refine ⟨_, _, XOR_text_fits a b c1 fuel _ rfl hsz h1 hf,
      XOR_text_fits b a c2 fuel _ (by rw [Nat.max_comm]) hsz h2 hf, ?_⟩
    rw [take_xorBytes_append _ _ _ _ (by omega) (by omega),
      take_xorBytes_append _ _ _ _ (by omega) (by omega), xorBytes_comm]

/-- Witness for C12: two buffers of three bytes and the texts "haha" and "wo"; all
four calls return. -/
theorem XOR_commutative_witness :
    (∃ r1 r2, XOR_buf [104, 97, 0] [119, 111, 119] 3 [0, 0, 0] 6 = .ok r1 ∧
        XOR_buf [119, 111, 119] [104, 97, 0] 3 [9, 9, 9, 9, 9] 6 = .ok r2 ∧
        r1.take 3 = r2.take 3) ∧
    (∃ r1 r2, XOR_text (lit "haha") (lit "wo") [0, 0, 0, 0, 0] 6 = .ok r1 ∧
        XOR_text (lit "wo") (lit "haha") [9, 9, 9, 9, 9] 6 = .ok r2 ∧
        r1.take (max (lit "haha").length (lit "wo").length + 1)
          = r2.take (max (lit "haha").length (lit "wo").length + 1)) :=
  ⟨(XOR_commutative [104, 97, 0] [119, 111, 119] (lit "haha") (lit "wo") [] [0, 0, 0]
      [9, 9, 9, 9, 9] 3 6).2.2.1 (by decide) (by decide) (by decide) (by decide) (by decide)
      (by decide),
   (XOR_commutative [104, 97, 0] [119, 111, 119] (lit "haha") (lit "wo") [] [0, 0, 0, 0, 0]
      [9, 9, 9, 9, 9] 3 6).2.2.2 (by decide) (by decide) (by decide) (by decide)⟩

/-! ## C13: the text-text XOR undone by the buffer-text XOR -/

/-- A text without a zero byte is what a text read finds in its zero-extension to more
bytes than it has, whatever follows. -/
theorem readText_zeroExtend (a rest : List Nat) (m : Nat) (hm : a.length < m)
    (hz : ∀ x ∈ a, x ≠ 0) : readText (zeroExtend a m ++ rest) = .ok a := by
  unfold zeroExtend
  rw [replicate_pos (m - a.length) 0 (by omega), List.append_assoc, List.cons_append,
    readText_append_zero, upToZero_of_no_zero a _ hz]

/-- The xor of the first `m` bytes of `zipWith xor za zb ++ rest` with `zb` is `za`. -/
theorem xorBytes_cancel (za zb rest : List Nat) (m : Nat) (ha : za.length = m)
    (hb : zb.length = m) :
    xorBytes (xorBytes za zb m ++ rest) zb m = za := by
  have hl := xorBytes_length za zb m (by omega) (by omega)
  unfold xorBytes at hl ⊢
  rw [List.take_append_of_le_length (by omega), List.take_of_length_le (by omega),
    List.take_of_length_le (by omega), List.take_of_length_le (by omega)]
  exact zipWith_xor_cancel za zb (by omega)

/-- C13 (as amended): for every two texts `a` and `b` with
`size = max (len (a), len (b)) + 1 < 2^32` and output arrays `c`, `d` of at least `size`
bytes, `XOR (XOR (a, b, c), b, size, d)` returns (with fuel above `size`): the C string
of `b` fits the `size`-byte scratch array (`len (b) + 1 <= size`), the first `size`
bytes of `d` are `a` extended with zero bytes to `size` bytes, the other bytes of `d`
are untouched, and `d` read as zero-terminated text is `a` whenever `a` has no zero
byte. -/
theorem XOR_mixed_round_trip (a b c d : List Nat) (fuel : Nat)
    (hsz : max a.length b.length + 1 < UINT32)
    (hc : max a.length b.length + 1 ≤ c.length) (hd : max a.length b.length + 1 ≤ d.length)
    (hf : max a.length b.length + 1 < fuel) :
    b.length + 1 ≤ max a.length b.length + 1 ∧
    ∃ c1 d1, XOR_text a b c fuel = .ok c1 ∧
      XOR_str c1 b (max a.length b.length + 1) d fuel = .ok d1 ∧
      d1.take (max a.length b.length + 1) = zeroExtend a (max a.length b.length + 1) ∧
      d1.drop (max a.length b.length + 1) = d.drop (max a.length b.length + 1) ∧
      ((∀ x ∈ a, x ≠ 0) → readText d1 = .ok a) := by
  have ha : a.length ≤ max a.length b.length := Nat.le_max_left _ _
  have hb : b.length ≤ max a.length b.length := Nat.le_max_right _ _
  have h1 := XOR_text_fits a b c fuel (max a.length b.length + 1) rfl hsz hc hf
  generalize max a.length b.length = k at *
  have hla := zeroExtend_length a (k + 1) (by omega)
  have hlb := zeroExtend_length b (k + 1) (by omega)
  have hlx := xorBytes_length (zeroExtend a (k + 1)) (zeroExtend b (k + 1)) (k + 1)
    (by omega) (by omega)
  have h2 := XOR_str_fits
    (xorBytes (zeroExtend a (k + 1)) (zeroExtend b (k + 1)) (k + 1) ++ c.drop (k + 1)) b d
    (k + 1) fuel (by omega) hsz (by rw [List.length_append, hlx]; omega) hd hf
  rw [xorBytes_cancel _ _ _ (k + 1) hla hlb] at h2
  refine ⟨by omega, _, _, h1, h2, ?_, ?_, ?_⟩
  · rw [List.take_append_of_le_length (by omega), List.take_of_length_le (by omega)]
  · rw [List.drop_append_of_le_length (by omega), List.drop_of_length_le (by omega)]
    simp
  · intro hz
    exact readText_zeroExtend a _ (k + 1) (by omega) hz

/-- Witness for C13: the texts of the demo in `main`, "hahale()11*#&*&*" and "wowo",
with two zero-filled arrays of 17 bytes. -/
theorem XOR_mixed_round_trip_witness :
    ∃ c1 d1, XOR_text (lit "hahale()11*#&*&*") (lit "wowo") (zeroArray 17) 18 = .ok c1 ∧
      XOR_str c1 (lit "wowo") (max (lit "hahale()11*#&*&*").length (lit "wowo").length + 1)
        (zeroArray 17) 18 = .ok d1 ∧
      readText d1 = .ok (lit "hahale()11*#&*&*") :=
  match XOR_mixed_round_trip (lit "hahale()11*#&*&*") (lit "wowo") (zeroArray 17)
      (zeroArray 17) 18 (by decide) (by decide) (by decide) (by decide) with
  | ⟨_, c1, d1, h1, h2, _, _, h5⟩ => ⟨c1, d1, h1, h2, h5 (by decide)⟩

/-- C13 (counterexample): with `a` the text of `2^32` bytes and `b` = "wowo", the inner
call `XOR (a, b, c)` yields no result, whatever the arrays and the fuel: its `uint32_t`
size is 1 and the copy of `a` runs past the one-byte scratch array. -/
theorem XOR_mixed_bigText_faults :
    ¬ ∃ c d fuel c1 d1, XOR_text bigText (lit "wowo") c fuel = .ok c1 ∧
      XOR_str c1 (lit "wowo") (max bigText.length (lit "wowo").length + 1) d fuel = .ok d1 := by
  rintro ⟨c, d, fuel, c1, d1, h, _⟩
  rw [XOR_text_fault bigText (lit "wowo") c fuel (by rw [bigText_length]; decide)] at h
  cases h

/-! ## C14: the two tracers on packets made by `SendData` -/

theorem upToZero_append_zero (rest : List Nat) :
    ∀ d : List Nat, upToZero (d ++ 0 :: rest) = upToZero d
  | [] => by simp [upToZero]
  | x :: d => by
    have ih := upToZero_append_zero rest d
    unfold upToZero at ih ⊢
    by_cases hx : x = 0
    · simp [hx]
    · simp only [List.cons_append, List.takeWhile_cons, hx, ne_eq, not_false_eq_true,
        decide_True, if_true, List.cons.injEq, true_and]
      exact ih

theorem upToZero_length_le (d : List Nat) : (upToZero d).length ≤ d.length := by
  unfold upToZero
  exact (List.takeWhile_sublist _).length_le

/-- In the polling tracer `CopyData` fills the whole local buffer with the payload. -/
theorem CopyData_full (junk : Nat → Nat) (p : Packet) :
    p.CopyData (newArray junk p.GetSize) p.GetSize = .ok p.data := by
  unfold Packet.CopyData memcpy
  simp only [Packet.GetSize, Nat.min_self, newArray_length, Nat.le_refl, and_self, if_true,
    List.take_length]
  rw [List.drop_of_length_le (by rw [newArray_length]), List.append_nil]

/-- The line the polling tracer returns for a source of the internet family and a
payload that holds a zero byte: the text is the payload up to its first zero byte. -/
theorem PrintReceivedPacket_inet (F : Fmt) (junk : Nat → Nat) (now nodeId S ps : Nat)
    (d rest : List Nat) :
    PrintReceivedPacket F junk now nodeId ⟨d ++ 0 :: rest⟩ (.inet S ps)
      = .ok (F.seconds now ++ lit " node " ++ F.nodeId nodeId
              ++ lit " received one packet from " ++ F.ipv4 S ++ lit ". data: "
              ++ upToZero d) := by
  unfold PrintReceivedPacket
  simp only [CopyData_full, readText_append_zero, upToZero_append_zero]

/-- C14 (as amended): for every text `t` with `len (t) + 2 < 2^32` and every
well-formed prior state, the packet `SendData` builds from `t` has a zero byte as its
last payload byte; `PrintReceivedPacket` on it (source of the internet family) returns
without reading past its buffer, and both tracers put the same text after ". data: ",
namely `t` up to its first zero byte, a text shorter than the packet, so that the read
stops at or before index `size - 1`. -/
theorem tracers_agree_on_SendData_packets (F : Fmt) (junk junk1 junk2 : Nat → Nat)
    (socket now nodeId S ps : Nat) (context t : List Nat) (destAddr : Address) (g : Globals)
    (hwf : g.WF) (hlen : t.length + 2 < UINT32) :
    ∃ g1 p, SendData junk socket t g = .ok (g1, [SockOp.send socket p]) ∧
      p.data.getLast? = some 0 ∧
      PrintReceivedPacket F junk1 now nodeId p (.inet S ps)
        = .ok (F.seconds now ++ lit " node " ++ F.nodeId nodeId
                ++ lit " received one packet from " ++ F.ipv4 S ++ lit ". data: "
                ++ upToZero t) ∧
      TwoAddressTrace F junk2 now context p (.inet S ps) destAddr
        = .ok ((match destAddr with
                | .inet ipv4 _ => F.seconds now ++ lit " " ++ F.ipv4 ipv4
                | .other _ => F.seconds now)
              ++ lit " received one packet from " ++ F.ipv4 S ++ lit ". data: "
              ++ upToZero t) ∧
      (upToZero t).length < p.GetSize := by
  obtain ⟨g1, _, h2⟩ := SendData_fits junk socket t g hwf (by omega)
  refine ⟨g1, ⟨t ++ [0]⟩, h2, by simp, PrintReceivedPacket_inet F junk1 now nodeId S ps t [],
    ?_, ?_⟩
  · rw [TwoAddressTrace_inet F junk2 now context ⟨t ++ [0]⟩ S ps destAddr
      (by simp [Packet.GetSize]; omega)]
    simp only [List.append_assoc, List.singleton_append, upToZero_append_zero]
  · have := upToZero_length_le t
    simp only [Packet.GetSize, List.length_append, List.length_singleton]
    omega

/-- Witness for C14: the text "ha", a zero byte, "ha" sent from the initial state; both
tracers decode "ha". -/
theorem tracers_agree_on_SendData_packets_witness :
    ∃ g1 p, SendData (fun _ => 255) 0 [104, 97, 0, 104, 97] Globals.init
          = .ok (g1, [SockOp.send 0 p]) ∧
      p.data.getLast? = some 0 ∧
      PrintReceivedPacket digitFmt (fun _ => 255) 2 7 p (.inet 1 80)
        = .ok (digitFmt.seconds 2 ++ lit " node " ++ digitFmt.nodeId 7
                ++ lit " received one packet from " ++ digitFmt.ipv4 1 ++ lit ". data: "
                ++ upToZero [104, 97, 0, 104, 97]) ∧
      TwoAddressTrace digitFmt (fun _ => 255) 2 [] p (.inet 1 80) (.inet 9 80)
        = .ok ((match Address.inet 9 80 with
                | .inet ipv4 _ => digitFmt.seconds 2 ++ lit " " ++ digitFmt.ipv4 ipv4
                | .other _ => digitFmt.seconds 2)
              ++ lit " received one packet from " ++ digitFmt.ipv4 1 ++ lit ". data: "
              ++ upToZero [104, 97, 0, 104, 97]) ∧
      (upToZero [104, 97, 0, 104, 97]).length < p.GetSize :=
  tracers_agree_on_SendData_packets digitFmt (fun _ => 255) (fun _ => 255) (fun _ => 255)
    0 2 7 1 80 [] [104, 97, 0, 104, 97] (.inet 9 80) Globals.init (by decide) (by decide)

/-- For a text of `2^32 - 2` bytes the polling tracer returns a line on the packet
`SendData` sends and the subscription tracer faults on it. -/
theorem SendData_tracers_differ (F : Fmt) (junk junk1 junk2 : Nat → Nat)
    (socket now nodeId S ps : Nat) (context t : List Nat) (destAddr : Address) (g : Globals)
    (hwf : g.WF) (hlen : t.length + 2 = UINT32) :
    ∃ g1 p, SendData junk socket t g = .ok (g1, [SockOp.send socket p]) ∧
      (∃ line, PrintReceivedPacket F junk1 now nodeId p (.inet S ps) = .ok line) ∧
      TwoAddressTrace F junk2 now context p (.inet S ps) destAddr = .fault := by
  obtain ⟨g1, _, h2⟩ := SendData_fits junk socket t g hwf (by omega)
  refine ⟨g1, ⟨t ++ [0]⟩, h2, ⟨_, PrintReceivedPacket_inet F junk1 now nodeId S ps t []⟩, ?_⟩
  apply TwoAddressTrace_fault
  simp only [Packet.GetSize, List.length_append, List.length_singleton]
  omega

/-- C14 (counterexample): for the text of `2^32` bytes `SendData` sends the one-byte
packet "a", without a zero byte, and `PrintReceivedPacket` reads past its one-byte
buffer; for the text of `2^32 - 2` bytes `PrintReceivedPacket` returns a line on the
packet sent while `TwoAddressTrace` faults, so the two tracers do not yield the same
text. -/
theorem tracers_disagree_on_big_texts :
    (SendData (fun _ => 0) 0 bigText Globals.init
        = .ok ({ m_dataSize := 1, m_data := some [97], allocs := 1 },
               [SockOp.send 0 ⟨[97]⟩]) ∧
      PrintReceivedPacket digitFmt (fun _ => 0) 2 7 ⟨[97]⟩ (.inet 1 80) = .fault) ∧
    ∃ g1 p, SendData (fun _ => 0) 0 longText Globals.init = .ok (g1, [SockOp.send 0 p]) ∧
      (∃ line, PrintReceivedPacket digitFmt (fun _ => 0) 2 7 p (.inet 1 80) = .ok line) ∧
      TwoAddressTrace digitFmt (fun _ => 0) 2 [] p (.inet 1 80) (.inet 9 80) = .fault :=
  ⟨⟨SendData_size_one (fun _ => 0) 0 bigText 97 Globals.init bigText_size bigText_take
      (by decide), by decide⟩,
   SendData_tracers_differ digitFmt (fun _ => 0) (fun _ => 0) (fun _ => 0) 0 2 7 1 80 []
     longText (.inet 9 80) Globals.init (by decide) (by rw [longText_length]; decide)⟩

/-! ## C15: the generator chain terminates -/

/-- C15: for every count `n` (a `uint32_t`: `n < 2^32`) and interval `T`, the simulation
whose only pending call is `GenerateTraffic (socket, s, n, T)` at `t0` runs to the end
in `n + 1` rounds (more fuel changes nothing) having dispatched exactly `n + 1` calls of
`GenerateTraffic`, call `k` at `t0 + k * T` with remaining count `n - k`; the `uint32_t`
decrement taken by call `k < n` gives `n - (k + 1)` without wrapping; the last socket
operation is the close at `t0 + n * T`, made by the last call, whose count is 0 and
which schedules nothing, and no call is left pending. -/
theorem GenerateTraffic_chain_terminates (junk : Nat → Nat) (socket s n T t0 extra : Nat)
    (g : Globals) (hn : n < UINT32) :
    ∃ fin, Sim.run junk (n + 1 + extra) (Sim.start t0 (Action.generateTraffic socket s n T) g)
        = .ok fin ∧
      fin.queue = [] ∧
      fin.calls = (List.range (n + 1)).map
        (fun k => (t0 + k * T, Action.generateTraffic socket s (n - k) T)) ∧
      fin.calls.length = n + 1 ∧
      (∀ k, k < n → (n - k + UINT32 - 1) % UINT32 = n - (k + 1)) ∧
      fin.trace.getLast? = some (t0 + n * T, SockOp.close socket) ∧
      GenerateTraffic socket s (n - n) T = { ops := [SockOp.close socket], scheduled := [] } := by
  refine ⟨_, Sim.run_chain junk socket s T g n extra t0 0 [] [] hn, rfl, ?_, ?_, ?_, ?_, ?_⟩
  · simp [chainCalls]
  · simp [chainCalls]
  · intro k hk
    rw [show n - k + UINT32 - 1 = (n - (k + 1)) + UINT32 by omega, Nat.add_mod_right]
    exact Nat.mod_eq_of_lt (by omega)
  · simp [chainTrace]
  · simp [GenerateTraffic]

/-- Witness for C15: count 3, interval 5, started at time 1: four calls. -/
theorem GenerateTraffic_chain_terminates_witness :
    ∃ fin, Sim.run (fun _ => 0) (3 + 1 + 0)
          (Sim.start 1 (Action.generateTraffic 0 1000 3 5) Globals.init) = .ok fin ∧
      fin.queue = [] ∧
      fin.calls = (List.range (3 + 1)).map
        (fun k => (1 + k * 5, Action.generateTraffic 0 1000 (3 - k) 5)) ∧
      fin.calls.length = 3 + 1 ∧
      (∀ k, k < 3 → (3 - k + UINT32 - 1) % UINT32 = 3 - (k + 1)) ∧
      fin.trace.getLast? = some (1 + 3 * 5, SockOp.close 0) ∧
      GenerateTraffic 0 1000 (3 - 3) 5 = { ops := [SockOp.close 0], scheduled := [] } :=
  GenerateTraffic_chain_terminates (fun _ => 0) 0 1000 3 5 1 0 Globals.init (by decide)

end WaveSimple
